import Mathlib

/-!
Verification of the `graphql_server` package (parser, resources, schema).

The package parses a GraphQL-like document into a selection tree
(`Query` holding `Resource` nodes, each with `Filter`s carrying
`NamedArg`s) and aggregates resolver results over the tree's root
resources.  The grammar-matching engine and the node classes it reuses
come from the external `dataql` dependency; where a definition below
embeds that external behaviour it is modelled from the specification and
says so in its doc comment.  Everything else is a direct translation of
the source modules `parser.py`, `resources.py` and `schema.py`.
-/

namespace GraphQLServer

/-- Modelled from the spec: a typed argument literal value as produced by
the external value literal reader (integer, float, string, boolean, or
null).  Floats are represented exactly as rationals since decimal
literals are finite decimal fractions. -/
inductive Value where
  | int (i : Int)
  | float (q : Rat)
  | str (s : String)
  | bool (b : Bool)
  | null
deriving DecidableEq, Repr

/-- Modelled from the spec: `dataql.resources.NamedArg`, a single call
argument with a name, an operator (always the equality string for this
grammar) and a typed value. -/
structure NamedArg where
  name : String
  operator : String
  value : Value
deriving DecidableEq, Repr

/-- Modelled from the spec: `dataql.resources.Filter`, a named operation
with an ordered argument list. -/
structure Filter where
  name : String
  args : List NamedArg
deriving DecidableEq, Repr

/-- Modelled from the spec: `dataql.resources.Filter` construction from a
name and an optional argument list; an absent argument list (no
parentheses in the source text) is normalized to the empty list, not
kept as a distinct null state. -/
def Filter.make (name : String) (args : Option (List NamedArg)) : Filter :=
  ⟨name, args.getD []⟩

/-- Modelled from the spec: the closed two-variant resource type of
`dataql.resources` (`Field` a leaf, `Object` an internal node with child
resources); both carry a display name, a filter list and the
`is_root` flag, which is false at construction time. -/
inductive Resource where
  | field (name : String) (filters : List Filter) (is_root : Bool)
  | object (name : String) (filters : List Filter) (resources : List Resource)
      (is_root : Bool)

/-- Display name of a resource (output key: alias or field name). -/
def Resource.name : Resource → String
  | .field n _ _ => n
  | .object n _ _ _ => n

/-- Filter list of a resource. -/
def Resource.filters : Resource → List Filter
  | .field _ f _ => f
  | .object _ f _ _ => f

/-- The `is_root` flag of a resource. -/
def Resource.is_root : Resource → Bool
  | .field _ _ b => b
  | .object _ _ _ b => b

/-- Child resources (empty for a leaf `Field`). -/
def Resource.children : Resource → List Resource
  | .field _ _ _ => []
  | .object _ _ rs _ => rs

/-- The one-time `is_root` flag assignment performed by
`visit_unnamed_query` on each top-level resource (`resource.is_root =
True` in `parser.py`): only the node's own flag changes. -/
def setRoot : Resource → Resource
  | .field n f _ => .field n f true
  | .object n f rs _ => .object n f rs true

mutual
/-- `true` iff the resource's own `is_root` flag is false and so are the
flags of all of its descendants. -/
def noRootFlags : Resource → Bool
  | .field _ _ b => !b
  | .object _ _ rs b => !b && noRootFlagsL rs

/-- `noRootFlags` over a list of resources. -/
def noRootFlagsL : List Resource → Bool
  | [] => true
  | r :: rs => noRootFlags r && noRootFlagsL rs
end

/-- `true` iff every strict descendant of the resource has a false
`is_root` flag (the node's own flag is not inspected). -/
def flagsOffBelow : Resource → Bool
  | .field _ _ _ => true
  | .object _ _ rs _ => noRootFlagsL rs

/-- `graphql_server.resources.Query`: a name (always the literal
`"default"` for parsed documents) and the ordered root resources. -/
structure Query where
  name : String
  resources : List Resource

/-- `true` iff every direct child of the query has `is_root = true` and
none of the deeper descendants does. -/
def rootsOk (q : Query) : Bool :=
  q.resources.all fun r => r.is_root && flagsOffBelow r

/-! ### The grammar, PEG-style over a list of characters

The generic matching engine (parsimonious, reached through
`dataql.parsers.base.BaseParser`) performs backtracking recursive
descent and requires the default rule to consume the whole input.  The
terminals `WS`, `IDENT`, `COL`, `PAR_O`, `PAR_C`, `CUR_O`, `CUR_C` and
the literal value rules live in the external `dataql` grammar and are
modelled from the spec; the composed rules and every reducer are
translated from `parser.py`. -/

/-- Modelled from the spec: `WS`, an optional run of whitespace, consumed
and discarded; it always succeeds. -/
def ws (s : List Char) : List Char := s.dropWhile Char.isWhitespace

/-- Modelled from the spec: `SPACE`, at least one whitespace character
(`parser.py` line 88 declares the terminal, the engine interprets it). -/
def spaceP : List Char → Option (List Char)
  | c :: rest => if c.isWhitespace then some (rest.dropWhile Char.isWhitespace) else none
  | [] => none

/-- `COM` from `base_grammar` in `parser.py`: a comma surrounded by
optional whitespace, or at least one whitespace character (ordered
choice, PEG semantics). -/
def com (s : List Char) : Option (List Char) :=
  match ws s with
  | ',' :: rest => some (ws rest)
  | _ => spaceP s

/-- Modelled from the spec: first character of an `IDENT` (letter or
underscore; identifiers may not start with a digit). -/
def isIdentStart (c : Char) : Bool := c.isAlpha || c = '_'

/-- Modelled from the spec: continuation character of an `IDENT`
(letters, digits, underscore). -/
def isIdentChar (c : Char) : Bool := c.isAlphanum || c = '_'

/-- Modelled from the spec: the `IDENT` terminal; double-underscore
prefixed names are permitted. -/
def identP : List Char → Option (String × List Char)
  | c :: rest =>
      if isIdentStart c then
        some (String.mk (c :: rest.takeWhile isIdentChar), rest.dropWhile isIdentChar)
      else none
  | [] => none

/-- `visit_args_oper` with its rule `COL` (`parser.py` lines 29-55): the
separator between an argument name and its value accepts only a colon,
and the reducer returns the equality operator string. -/
def argsOper : List Char → Option (String × List Char)
  | c :: rest => if c = ':' then some ("=", rest) else none
  | [] => none

/-- Digit run helper for the number literal. -/
def digits (s : List Char) : Option (List Char × List Char) :=
  match s.takeWhile Char.isDigit with
  | [] => none
  | ds => some (ds, s.dropWhile Char.isDigit)

/-- Interpret a list of decimal digit characters as a natural number. -/
def digitsToNat (ds : List Char) : Nat :=
  ds.foldl (fun acc c => acc * 10 + (c.toNat - 48)) 0

/-- ASCII-lowercased code of a character, for the case-insensitive
keyword comparison of the value literal reader. -/
def lowerCode (c : Char) : Nat :=
  if 65 ≤ c.toNat && c.toNat ≤ 90 then c.toNat + 32 else c.toNat

/-- Case-insensitive comparison of a scanned word against a keyword. -/
def keywordCI (word kw : List Char) : Bool :=
  word.map lowerCode = kw.map lowerCode

/-- Modelled from the spec: the value literal reader.  An integer token
becomes a signed integer, a decimal token a float (represented exactly
as a rational), a quoted string loses its quotes with no escape
processing, `TRUE`/`FALSE` case-insensitively become booleans, and the
`null` keyword becomes the null value. -/
def parseValue : List Char → Option (Value × List Char)
  | '"' :: rest =>
      let content := rest.takeWhile (fun c => !(c = '"'))
      (match rest.dropWhile (fun c => !(c = '"')) with
       | '"' :: rest2 => some (.str (String.mk content), rest2)
       | _ => none)
  | '-' :: rest =>
      (match digits rest with
       | none => none
       | some (ds, rest2) =>
          match rest2 with
          | '.' :: rest3 =>
              (match digits rest3 with
               | none => none
               | some (fs, rest4) =>
                  some (.float (-((digitsToNat ds : Rat) +
                    (digitsToNat fs : Rat) / ((10 : Rat) ^ fs.length))), rest4))
          | _ => some (.int (-(digitsToNat ds : Int)), rest2))
  | c :: rest =>
      if c.isDigit then
        match digits (c :: rest) with
        | none => none
        | some (ds, rest2) =>
          match rest2 with
          | '.' :: rest3 =>
              (match digits rest3 with
               | none => none
               | some (fs, rest4) =>
                  some (.float ((digitsToNat ds : Rat) +
                    (digitsToNat fs : Rat) / ((10 : Rat) ^ fs.length)), rest4))
          | _ => some (.int (digitsToNat ds : Int), rest2)
      else if c.isAlpha then
        let word := (c :: rest).takeWhile Char.isAlpha
        let rest2 := (c :: rest).dropWhile Char.isAlpha
        if keywordCI word ("true".toList) then some (.bool true, rest2)
        else if keywordCI word ("false".toList) then some (.bool false, rest2)
        else if keywordCI word ("null".toList) then some (.null, rest2)
        else none
      else none
  | [] => none

/-- One `name : value` pair of the named-argument grammar
(`dataql.parsers.mixins.NamedArgsParserMixin`, modelled from the spec,
with the colon-only separator of `visit_args_oper` from `parser.py`). -/
def namedArg (s : List Char) : Option (NamedArg × List Char) :=
  match identP s with
  | none => none
  | some (n, s1) =>
    match argsOper (ws s1) with
    | none => none
    | some (op, s2) =>
      match parseValue (ws s2) with
      | none => none
      | some (v, s3) => some (⟨n, op, v⟩, s3)

/-- The `(COM NAMED_ARG)*` tail of a named-argument list: each iteration
matches a separator and one more argument, and the star stops (restoring
the position) when the unit fails. -/
def namedArgsStar : Nat → List Char → List NamedArg × List Char
  | 0, s => ([], s)
  | fuel + 1, s =>
    match com s with
    | none => ([], s)
    | some s1 =>
      match namedArg s1 with
      | none => ([], s)
      | some (a, s2) =>
        let t := namedArgsStar fuel s2
        (a :: t.1, t.2)

/-- Modelled from the spec: `NAMED_ARGS`, one named argument followed by
any number of separator-prefixed named arguments; at least one argument
is required. -/
def namedArgs (fuel : Nat) (s : List Char) : Option (List NamedArg × List Char) :=
  match namedArg s with
  | none => none
  | some (a, s1) =>
    let t := namedArgsStar fuel s1
    some (a :: t.1, t.2)

/-- Modelled from the spec: the `PAR_O` terminal (optional whitespace
then an opening parenthesis). -/
def parOpen (s : List Char) : Option (List Char) :=
  match ws s with
  | '(' :: rest => some rest
  | _ => none

/-- Modelled from the spec: the `PAR_C` terminal (optional whitespace
then a closing parenthesis). -/
def parClose (s : List Char) : Option (List Char) :=
  match ws s with
  | ')' :: rest => some rest
  | _ => none

/-- Modelled from the spec: the `CUR_O` terminal (optional whitespace
then an opening curly bracket). -/
def curOpen (s : List Char) : Option (List Char) :=
  match ws s with
  | '\x7b' :: rest => some rest
  | _ => none

/-- Modelled from the spec: the `CUR_C` terminal (optional whitespace
then a closing curly bracket). -/
def curClose (s : List Char) : Option (List Char) :=
  match ws s with
  | '\x7d' :: rest => some rest
  | _ => none

/-- `visit_field_arguments` with its rule `PAR_O NAMED_ARGS PAR_C`
(`parser.py` lines 535-563): an argument list surrounded by parentheses,
reducing to the named-argument list alone. -/
def fieldArguments (fuel : Nat) (s : List Char) : Option (List NamedArg × List Char) :=
  match parOpen s with
  | none => none
  | some s1 =>
    match namedArgs fuel (ws s1) with
    | none => none
    | some (as1, s2) =>
      match parClose s2 with
      | none => none
      | some s3 => some (as1, s3)

/-- `visit_optional_field_arguments` with its rule `FIELD_ARGUMENTS?`
(`parser.py` lines 565-593): the argument list if present, `none`
otherwise (position restored on failure). -/
def optFieldArguments (fuel : Nat) (s : List Char) :
    Option (List NamedArg) × List Char :=
  match fieldArguments fuel s with
  | some (as1, s1) => (some as1, s1)
  | none => (none, s)

/-- `visit_field_alias` with its rule `IDENT WS COL WS` (`parser.py`
lines 453-483): an identifier, optional whitespace, a colon and optional
whitespace, reducing to the identifier. -/
def fieldAlias (s : List Char) : Option (String × List Char) :=
  match identP s with
  | none => none
  | some (a, s1) =>
    match ws s1 with
    | ':' :: s2 => some (a, ws s2)
    | _ => none

/-- `visit_optional_field_alias` with its rule `FIELD_ALIAS?`
(`parser.py` lines 485-508): the alias if present, `none` otherwise
(position restored on failure). -/
def optFieldAlias (s : List Char) : Option String × List Char :=
  match fieldAlias s with
  | some (a, s1) => (some a, s1)
  | none => (none, s)

/-- The display-name computation of `visit_field` (`parser.py` line 446):
`children[1] or children[2]`, i.e. the alias when it is present and
non-empty (Python truthiness), otherwise the field name. -/
def fieldDisplayName : Option String → String → String
  | some a, fname => if a = "" then fname else a
  | none, fname => fname

/-- The reducer body of `visit_field` (`parser.py` lines 446-451): build
the single filter from the field name and the optional argument list,
then return an `Object` when the optional selection set is truthy (a
non-empty list, Python truthiness of `children[5]`) and a `Field`
otherwise. -/
def visit_field (al : Option String) (fname : String)
    (args : Option (List NamedArg)) (sel : Option (List Resource)) : Resource :=
  let nm := fieldDisplayName al fname
  let filt := Filter.make fname args
  match sel with
  | some (r :: rs) => .object nm [filt] (r :: rs) false
  | _ => .field nm [filt] false

/-- `visit_optional_selection_set` with its rule `SELECTION_SET?`
(`parser.py` lines 264-308): the selection set if present, `none`
otherwise (position restored on failure). -/
def optSelWith (selSetP : List Char → Option (List Resource × List Char))
    (s : List Char) : Option (List Resource) × List Char :=
  match selSetP s with
  | some (rs, s5) => (some rs, s5)
  | none => (none, s)

/-- The trailing `COM?` of the `FIELD` rule: consume one separator if
present. -/
def optComTail (s : List Char) : List Char :=
  match com s with
  | some s7 => s7
  | none => s

/-- The part of the `FIELD` rule after the field name: optional
whitespace was consumed, then the optional argument list, the optional
selection set and the optional trailing separator, folded by
`visit_field`. -/
def parseFieldTail (selSetP : List Char → Option (List Resource × List Char))
    (fuel : Nat) (al : Option String) (fname : String) (s3 : List Char) :
    Resource × List Char :=
  let g := optFieldArguments fuel s3
  let sel := optSelWith selSetP g.2
  (visit_field al fname g.1 sel.1, optComTail sel.2)

/-- The `FIELD` rule `WS OPTIONAL_FIELD_ALIAS FIELD_NAME WS
OPTIONAL_FIELD_ARGUMENTS OPTIONAL_SELECTION_SET COM?` (`parser.py` lines
387-451), parameterized by the parser for the nested selection set
(`FIELD_NAME` reduces to its `IDENT`, `parser.py` lines 510-533). -/
def parseFieldWith (selSetP : List Char → Option (List Resource × List Char))
    (fuel : Nat) (s : List Char) : Option (Resource × List Char) :=
  match identP (optFieldAlias (ws s)).2 with
  | none => none
  | some q =>
    some (parseFieldTail selSetP fuel (optFieldAlias (ws s)).1 q.1 (ws q.2))

/-- The `SELECTION+` star: repeat the field parser while it succeeds
(`SELECTION` reduces to its single `FIELD`, `parser.py` lines
353-385). -/
def parseFieldsStar (fieldP : List Char → Option (Resource × List Char)) :
    Nat → List Char → List Resource × List Char
  | 0, s => ([], s)
  | fuel + 1, s =>
    match fieldP s with
    | none => ([], s)
    | some (r, s1) =>
      let t := parseFieldsStar fieldP fuel s1
      (r :: t.1, t.2)

/-- `visit_selections` with its rule `SELECTION+` (`parser.py` lines
310-351): one or more selections, reducing to the list of resources. -/
def parseSelections (fieldP : List Char → Option (Resource × List Char))
    (fuel : Nat) (s : List Char) : Option (List Resource × List Char) :=
  match fieldP s with
  | none => none
  | some (r, s1) =>
    let t := parseFieldsStar fieldP fuel s1
    some (r :: t.1, t.2)

/-- `visit_selection_set` with its rule `CUR_O SELECTIONS CUR_C`
(`parser.py` lines 219-262): selections surrounded by curly brackets,
reducing to the selections alone. -/
def parseSelectionSetWith (fieldP : List Char → Option (Resource × List Char))
    (fuel : Nat) (s : List Char) : Option (List Resource × List Char) :=
  match curOpen s with
  | none => none
  | some s1 =>
    match parseSelections fieldP fuel s1 with
    | none => none
    | some (rs, s2) =>
      match curClose s2 with
      | none => none
      | some s3 => some (rs, s3)

/-- The complete `FIELD` parser: fuel bounds the recursion through
nested selection sets and the repetition stars; every level consumes at
least one character, so any fuel beyond the input length is enough. -/
def parseField : Nat → List Char → Option (Resource × List Char) :=
  Nat.rec (motive := fun _ => List Char → Option (Resource × List Char))
    (fun _ => none)
    (fun fuel ih => parseFieldWith (parseSelectionSetWith ih fuel) fuel)

/-- `visit_unnamed_query` with its rule `SELECTION_SET` (`parser.py`
lines 158-217): set `is_root` on every resource of the selection set and
wrap them in a `Query` named `"default"`. -/
def visit_unnamed_query (rs : List Resource) : Query :=
  ⟨"default", rs.map setRoot⟩

/-- The `ROOT` rule `WS UNNAMED_QUERY WS` (`parser.py` lines 95-156)
run by the engine as the default rule over the whole document
(`visit_root` reduces to the query itself); the engine requires the
entire input to be consumed. -/
def parse (doc : String) : Option Query :=
  let s := doc.toList
  let fuel := s.length + 1
  match parseSelectionSetWith (parseField fuel) fuel (ws s) with
  | some (rs, rest) => if ws rest = [] then some (visit_unnamed_query rs) else none
  | none => none

/-- Running the parser with `FIELD` as the default rule (as the doctests
of `parser.py` do): the whole input must be consumed. -/
def parseFieldDoc (doc : String) : Option Resource :=
  let s := doc.toList
  match parseField (s.length + 1) s with
  | some (r, rest) => if rest = [] then some r else none
  | none => none

/-- Running the parser with `NAMED_ARGS` as the default rule (as the
`ArgumentsMixin` doctests do): the whole input must be consumed. -/
def parseNamedArgsDoc (doc : String) : Option (List NamedArg) :=
  let s := doc.toList
  match namedArgs (s.length + 1) s with
  | some (as1, rest) => if rest = [] then some as1 else none
  | none => none

/-- Running the parser with `FIELD_ARGUMENTS` as the default rule (as
the `visit_field_arguments` doctests do): the whole input must be
consumed. -/
def parseFieldArgumentsDoc (doc : String) : Option (List NamedArg) :=
  let s := doc.toList
  match fieldArguments (s.length + 1) s with
  | some (as1, rest) => if rest = [] then some as1 else none
  | none => none

/-! ### The query aggregator (`schema.py`)

`Schema.solve_query` builds a Python dict by comprehension over
`query.resources`, calling the external `solve_resource` (the resolution
registry inherited from `dataql.solvers.registry.Registry`, abstracted
here as the function argument `resolve`) once per resource in source
order and assigning the result under the resource's display name.  The
dict is embedded as an association list with Python's insertion
semantics: assigning to an existing key overwrites it in place,
otherwise the pair is appended. -/

/-- Python dict assignment `m[k] = v` on an insertion-ordered
association list with unique keys: overwrite the existing entry in place
when the key exists, append a new entry otherwise. -/
def dictInsert {β : Type _} : List (String × β) → String → β → List (String × β)
  | [], k, v => [(k, v)]
  | p :: m, k, v => if p.1 = k then (k, v) :: m else p :: dictInsert m k v

/-- Python dict lookup `m[k]` as an option. -/
def dictLookup {β : Type _} : List (String × β) → String → Option β
  | [], _ => none
  | p :: m, k => if p.1 = k then some p.2 else dictLookup m k

/-- The last element of the list satisfying the predicate, if any. -/
def lastMatch {γ : Type _} (p : γ → Bool) : List γ → Option γ
  | [] => none
  | x :: xs =>
    match lastMatch p xs with
    | some y => some y
    | none => if p x then some x else none

/-- The dict-comprehension loop of `Schema.solve_query` (`schema.py`
lines 73-76), made explicit: thread the dict through the resources in
source order and record each resolver invocation. -/
def solveQueryRun {α β : Type _} (resolve : α → Resource → β) (value : α) :
    List (String × β) → List Resource → List (String × β) × List Resource
  | m, [] => (m, [])
  | m, r :: rs =>
    let t := solveQueryRun resolve value (dictInsert m r.name (resolve value r)) rs
    (t.1, r :: t.2)

/-- `Schema.solve_query` (`schema.py` lines 18-76): one dict entry per
resource of the query, keyed by the resource's display name, valued by
the external resolver's result. -/
def solve_query {α β : Type _} (resolve : α → Resource → β) (value : α)
    (q : Query) : List (String × β) :=
  (solveQueryRun resolve value [] q.resources).1

/-- The resources on which `Schema.solve_query` invokes the external
resolver, in invocation order. -/
def solveCalls {α β : Type _} (resolve : α → Resource → β) (value : α)
    (q : Query) : List Resource :=
  (solveQueryRun resolve value [] q.resources).2

/-! ### Concrete instances used by witnesses and counterexamples -/

/-- A concrete resolver distinguishing resources by their filter count. -/
def dupResolve : Unit → Resource → Nat := fun _ r => r.filters.length

/-- First of two root resources sharing the display name `"x"`. -/
def dupFieldA : Resource := .field "x" [] false

/-- Second of two root resources sharing the display name `"x"`. -/
def dupFieldB : Resource := .field "x" [⟨"f", []⟩] false

/-- A query whose two root resources share the display name `"x"`. -/
def dupQuery : Query := ⟨"default", [dupFieldA, dupFieldB]⟩

/-- A query whose root resources have pairwise distinct display names. -/
def distinctQuery : Query :=
  ⟨"default", [.field "a" [] false, .field "b" [⟨"f", []⟩] false]⟩

/-! ### Lemmas about the aggregator's dict -/

theorem solveQueryRun_snd {α β : Type _} (resolve : α → Resource → β) (value : α) :
    ∀ (rs : List Resource) (m : List (String × β)),
    (solveQueryRun resolve value m rs).2 = rs := by
  intro rs
  induction rs with
  | nil => intro m; rfl
  | cons r rs ih => intro m; simp only [solveQueryRun]; rw [ih]

theorem solveQueryRun_fst {α β : Type _} (resolve : α → Resource → β) (value : α) :
    ∀ (rs : List Resource) (m : List (String × β)),
    (solveQueryRun resolve value m rs).1 =
      rs.foldl (fun m r => dictInsert m r.name (resolve value r)) m := by
  intro rs
  induction rs with
  | nil => intro m; rfl
  | cons r rs ih => intro m; simp only [solveQueryRun, List.foldl_cons]; rw [ih]

theorem dictInsert_not_mem {β : Type _} :
    ∀ (m : List (String × β)) (k : String) (v : β), k ∉ m.map Prod.fst →
    dictInsert m k v = m ++ [(k, v)] := by
  intro m k v h
  induction m with
  | nil => rfl
  | cons p m ih =>
    simp only [List.map_cons, List.mem_cons] at h
    push_neg at h
    have hp : ¬ p.1 = k := fun e => h.1 e.symm
    simp only [dictInsert, if_neg hp, List.cons_append, List.cons.injEq, true_and]
    exact ih h.2

theorem dictLookup_dictInsert {β : Type _} :
    ∀ (m : List (String × β)) (k : String) (v : β) (k' : String),
    dictLookup (dictInsert m k v) k' = if k = k' then some v else dictLookup m k' := by
  intro m k v k'
  induction m with
  | nil => by_cases h : k = k' <;> simp [dictInsert, dictLookup, h]
  | cons p m ih =>
    simp only [dictInsert]
    by_cases hp : p.1 = k
    · rw [if_pos hp]
      by_cases h : k = k'
      · simp [dictLookup, h]
      · have hp' : ¬ p.1 = k' := fun e => h (hp ▸ e)
        simp [dictLookup, h, hp']
    · rw [if_neg hp]
      simp only [dictLookup]
      by_cases hq : p.1 = k'
      · have h : ¬ k = k' := fun e => hp (e ▸ hq)
        simp [hq, h]
      · simp [hq, ih]

theorem mem_keys_dictInsert {β : Type _} :
    ∀ (m : List (String × β)) (k : String) (v : β) (a : String),
    a ∈ (dictInsert m k v).map Prod.fst ↔ a ∈ m.map Prod.fst ∨ a = k := by
  intro m k v a
  induction m with
  | nil => simp [dictInsert]
  | cons p m ih =>
    simp only [dictInsert]
    by_cases hp : p.1 = k
    · rw [if_pos hp]
      simp only [List.map_cons, List.mem_cons]
      constructor
      · rintro (h | h)
        · exact Or.inr h
        · exact Or.inl (Or.inr h)
      · rintro ((h | h) | h)
        · exact Or.inl (h.trans hp)
        · exact Or.inr h
        · exact Or.inl h
    · rw [if_neg hp]
      simp only [List.map_cons, List.mem_cons, ih]
      tauto

theorem nodup_keys_dictInsert {β : Type _} :
    ∀ (m : List (String × β)) (k : String) (v : β),
    (m.map Prod.fst).Nodup → ((dictInsert m k v).map Prod.fst).Nodup := by
  intro m k v h
  induction m with
  | nil => simp [dictInsert]
  | cons p m ih =>
    simp only [List.map_cons, List.nodup_cons] at h
    by_cases hp : p.1 = k
    · simp only [dictInsert, if_pos hp, List.map_cons, List.nodup_cons]
      exact ⟨hp ▸ h.1, h.2⟩
    · simp only [dictInsert, if_neg hp, List.map_cons, List.nodup_cons,
        mem_keys_dictInsert]
      exact ⟨by tauto, ih h.2⟩

theorem dictLookup_mem_keys {β : Type _} :
    ∀ (m : List (String × β)) (n : String) (b : β),
    dictLookup m n = some b → n ∈ m.map Prod.fst := by
  intro m n b h
  induction m with
  | nil => exact absurd h (by simp [dictLookup])
  | cons p m ih =>
    by_cases hp : p.1 = n
    · simp [hp]
    · simp only [dictLookup, if_neg hp] at h
      simp [ih h]

theorem foldl_dictInsert_lookup {α β : Type _} (resolve : α → Resource → β)
    (value : α) (n : String) :
    ∀ (rs : List Resource) (m : List (String × β)),
    dictLookup (rs.foldl (fun m r => dictInsert m r.name (resolve value r)) m) n =
      (lastMatch (fun r => r.name == n) rs).elim (dictLookup m n)
        (fun r => some (resolve value r)) := by
  intro rs
  induction rs with
  | nil => intro m; rfl
  | cons r rs ih =>
    intro m
    simp only [List.foldl_cons]
    rw [ih]
    cases hl : lastMatch (fun r => r.name == n) rs with
    | some y => simp [lastMatch, hl]
    | none =>
      by_cases hn : r.name = n <;>
        simp [lastMatch, hl, dictLookup_dictInsert, hn, Option.elim]

theorem foldl_dictInsert_nodup_keys {α β : Type _} (resolve : α → Resource → β)
    (value : α) :
    ∀ (rs : List Resource) (m : List (String × β)),
    (m.map Prod.fst).Nodup →
    ((rs.foldl (fun m r => dictInsert m r.name (resolve value r)) m).map Prod.fst).Nodup := by
  intro rs
  induction rs with
  | nil => intro m h; exact h
  | cons r rs ih =>
    intro m h
    simp only [List.foldl_cons]
    exact ih _ (nodup_keys_dictInsert _ _ _ h)

theorem foldl_dictInsert_append {α β : Type _} (resolve : α → Resource → β)
    (value : α) :
    ∀ (rs : List Resource) (m : List (String × β)),
    (∀ r ∈ rs, r.name ∉ m.map Prod.fst) → (rs.map Resource.name).Nodup →
    rs.foldl (fun m r => dictInsert m r.name (resolve value r)) m =
      m ++ rs.map (fun r => (r.name, resolve value r)) := by
  intro rs
  induction rs with
  | nil => intro m _ _; simp
  | cons r rs ih =>
    intro m hm hnd
    simp only [List.map_cons, List.nodup_cons] at hnd
    simp only [List.foldl_cons, List.map_cons]
    rw [dictInsert_not_mem m r.name _ (hm r (List.mem_cons_self r rs))]
    rw [ih (m ++ [(r.name, resolve value r)]) ?h1 hnd.2]
    · simp
    case h1 =>
      intro r' hr'
      simp only [List.map_append, List.mem_append, List.map_cons, List.map_nil,
        List.mem_singleton]
      rintro (hin | he)
      · exact hm r' (List.mem_cons_of_mem r hr') hin
      · exact hnd.1 (he ▸ List.mem_map_of_mem Resource.name hr')

theorem lastMatch_none_countP {γ : Type _} (p : γ → Bool) :
    ∀ l : List γ, lastMatch p l = none → l.countP p = 0 := by
  intro l h
  induction l with
  | nil => rfl
  | cons x xs ih =>
    simp only [lastMatch] at h
    cases hl : lastMatch p xs with
    | some y => rw [hl] at h; exact absurd h (by simp)
    | none =>
      rw [hl] at h
      by_cases hx : p x
      · rw [if_pos hx] at h; exact absurd h (by simp)
      · simp [List.countP_cons, hx, ih hl]

theorem lastMatch_isSome_of_countP {γ : Type _} (p : γ → Bool) (l : List γ)
    (h : 0 < l.countP p) : ∃ y, lastMatch p l = some y := by
  cases hl : lastMatch p l with
  | some y => exact ⟨y, rfl⟩
  | none => rw [lastMatch_none_countP p l hl] at h; exact absurd h (by simp)

/-- C1 (counterexample): with two root resources both named `"x"` whose
resolver results differ, the output mapping does not have one entry per
resource, and the first resource's display name is not mapped to that
resource's resolver result; the claim's unconditional form fails. -/
theorem solve_query_dup_counterexample :
    dupFieldA ∈ dupQuery.resources ∧
    (solve_query dupResolve () dupQuery).length ≠ dupQuery.resources.length ∧
    dictLookup (solve_query dupResolve () dupQuery) dupFieldA.name ≠
      some (dupResolve () dupFieldA) := by
  refine ⟨List.mem_cons_self dupFieldA [dupFieldB], by decide, by decide⟩

/-- C1 (amended): for every query whose root resources have pairwise
distinct display names and every root value, `solve_query` returns the
mapping with one entry per resource in source order, keyed by the
resource's display name and valued by `resolve(root_value, resource)`,
and the resolver is invoked once per resource in source order. -/
theorem solve_query_distinct_names {α β : Type _} (resolve : α → Resource → β)
    (value : α) (q : Query) (h : (q.resources.map Resource.name).Nodup) :
    solve_query resolve value q =
      q.resources.map (fun r => (r.name, resolve value r)) ∧
    solveCalls resolve value q = q.resources := by
  constructor
  · unfold solve_query
    rw [solveQueryRun_fst]
    simpa using foldl_dictInsert_append resolve value q.resources []
      (by simp) h
  · unfold solveCalls
    rw [solveQueryRun_snd]

/-- C1 (witness): the amended statement applied to a concrete
two-resource query with distinct display names. -/
theorem solve_query_distinct_names_witness :
    solve_query dupResolve () distinctQuery =
      distinctQuery.resources.map (fun r => (r.name, dupResolve () r)) ∧
    solveCalls dupResolve () distinctQuery = distinctQuery.resources :=
  solve_query_distinct_names dupResolve () distinctQuery (by decide)

/-- C6: when two or more root resources share the display name `n`, the
output mapping has exactly one entry under `n`, and its value is the
resolver result of the last resource with that name in source order. -/
theorem solve_query_last_write_wins {α β : Type _} (resolve : α → Resource → β)
    (value : α) (q : Query) (n : String)
    (h : 2 ≤ q.resources.countP (fun r => r.name == n)) :
    ((solve_query resolve value q).map Prod.fst).count n = 1 ∧
    ∃ r, lastMatch (fun r => r.name == n) q.resources = some r ∧
      dictLookup (solve_query resolve value q) n = some (resolve value r) := by
  have hsq : solve_query resolve value q =
      q.resources.foldl (fun m r => dictInsert m r.name (resolve value r)) [] := by
    unfold solve_query; rw [solveQueryRun_fst]
  obtain ⟨r, hr⟩ := lastMatch_isSome_of_countP (fun r => r.name == n) q.resources
    (by omega)
  have hlook : dictLookup (solve_query resolve value q) n = some (resolve value r) := by
    rw [hsq, foldl_dictInsert_lookup, hr]
    rfl
  refine ⟨?_, r, hr, hlook⟩
  have hnd : ((solve_query resolve value q).map Prod.fst).Nodup := by
    rw [hsq]
    exact foldl_dictInsert_nodup_keys resolve value q.resources [] (by simp)
  exact List.count_eq_one_of_mem hnd (dictLookup_mem_keys _ _ _ hlook)

/-- C6 (witness): the statement applied to the concrete query with two
root resources both named `"x"`. -/
theorem solve_query_last_write_wins_witness :
    ((solve_query dupResolve () dupQuery).map Prod.fst).count "x" = 1 ∧
    ∃ r, lastMatch (fun r => r.name == "x") dupQuery.resources = some r ∧
      dictLookup (solve_query dupResolve () dupQuery) "x" = some (dupResolve () r) :=
  solve_query_last_write_wins dupResolve () dupQuery "x" (by decide)

/-! ### Lemmas about the grammar -/

theorem parseSelections_eq (fieldP : List Char → Option (Resource × List Char))
    (fuel : Nat) (s : List Char) :
    parseSelections fieldP fuel s = (fieldP s).map fun q =>
      ((q.1 :: (parseFieldsStar fieldP fuel q.2).1),
        (parseFieldsStar fieldP fuel q.2).2) := by
  unfold parseSelections
  cases fieldP s with
  | none => rfl
  | some q => rfl

theorem parseSelectionSetWith_eq
    (fieldP : List Char → Option (Resource × List Char)) (fuel : Nat)
    (s : List Char) :
    parseSelectionSetWith fieldP fuel s =
      (curOpen s).bind fun s1 =>
        (parseSelections fieldP fuel s1).bind fun p =>
          (curClose p.2).map fun s3 => (p.1, s3) := by
  unfold parseSelectionSetWith
  cases curOpen s with
  | none => rfl
  | some s1 =>
    simp only [Option.some_bind]
    cases parseSelections fieldP fuel s1 with
    | none => rfl
    | some p =>
      obtain ⟨rs1, s2⟩ := p
      simp only [Option.some_bind]
      cases curClose s2 <;> rfl

theorem parseSelections_ne_nil (fieldP : List Char → Option (Resource × List Char))
    (fuel : Nat) (s : List Char) {rs : List Resource} {rest : List Char}
    (h : parseSelections fieldP fuel s = some (rs, rest)) : rs ≠ [] := by
  rw [parseSelections_eq] at h
  simp only [Option.map_eq_some'] at h
  obtain ⟨q, _, hq⟩ := h
  simp only [Prod.mk.injEq] at hq
  obtain ⟨h1, _⟩ := hq
  subst h1
  simp

theorem parseSelectionSetWith_ne_nil
    (fieldP : List Char → Option (Resource × List Char)) (fuel : Nat)
    (s : List Char) {rs : List Resource} {rest : List Char}
    (h : parseSelectionSetWith fieldP fuel s = some (rs, rest)) : rs ≠ [] := by
  rw [parseSelectionSetWith_eq] at h
  simp only [Option.bind_eq_some, Option.map_eq_some'] at h
  obtain ⟨s1, _, p, hsel, s3, _, hp⟩ := h
  have hne := parseSelections_ne_nil fieldP fuel s1 hsel
  simp only [Prod.mk.injEq] at hp
  obtain ⟨h1, _⟩ := hp
  subst h1
  exact hne

theorem parse_eq (doc : String) :
    parse doc = (parseSelectionSetWith (parseField (doc.toList.length + 1))
        (doc.toList.length + 1) (ws doc.toList)).bind
      (fun p => if ws p.2 = [] then some (visit_unnamed_query p.1) else none) := by
  unfold parse
  dsimp only
  cases parseSelectionSetWith (parseField (doc.toList.length + 1))
      (doc.toList.length + 1) (ws doc.toList) with
  | none => rfl
  | some p => obtain ⟨rs, rest⟩ := p; rfl

/-- C10: `solve_query` on a query with an empty resources list returns
the empty mapping and invokes the resolver on nothing, for every root
value; no at-least-one-resource precondition is imposed, even though the
grammar never yields a parsed query with an empty resources list. -/
theorem solve_query_empty_resources :
    (∀ (γ δ : Type) (resolve : γ → Resource → δ) (value : γ) (nm : String),
      solve_query resolve value ⟨nm, []⟩ = [] ∧
      solveCalls resolve value ⟨nm, []⟩ = []) ∧
    (∀ (doc : String) (q : Query), parse doc = some q → q.resources ≠ []) := by
  refine ⟨fun γ δ resolve value nm => ⟨rfl, rfl⟩, ?_⟩
  intro doc q h
  rw [parse_eq] at h
  simp only [Option.bind_eq_some] at h
  obtain ⟨⟨rs, rest⟩, hps, hif⟩ := h
  by_cases hr : ws rest = []
  · rw [if_pos hr] at hif
    simp only [Option.some.injEq] at hif
    subst hif
    simp only [visit_unnamed_query, ne_eq, List.map_eq_nil_iff]
    exact parseSelectionSetWith_ne_nil _ _ _ hps
  · rw [if_neg hr] at hif
    exact absurd hif (by simp)

/-- C10 (witness): the no-empty-query-from-the-grammar part applied to
the concrete document with one field. -/
theorem solve_query_empty_resources_witness :
    (Query.mk "default" [Resource.field "a" [⟨"a", []⟩] true]).resources ≠ [] :=
  solve_query_empty_resources.2 "\x7ba\x7d"
    (Query.mk "default" [Resource.field "a" [⟨"a", []⟩] true]) rfl

/-- C2: `luke: human(id: 1000) { name }` parses to an Object displayed
as `"luke"` whose single Filter is named `"human"` with the one integer
argument `id = 1000` and whose children are the one leaf Field
`"name"`; in general the display name is the alias when one is supplied
and the field name otherwise, and the field name is always the Filter's
name. -/
theorem parse_alias_field :
    parseFieldDoc "luke: human(id: 1000) \x7b name \x7d" =
      some (.object "luke" [⟨"human", [⟨"id", "=", .int 1000⟩]⟩]
        [.field "name" [⟨"name", []⟩] false] false) ∧
    (∀ (a fname : String) (args : Option (List NamedArg))
        (sel : Option (List Resource)), a ≠ "" →
      (visit_field (some a) fname args sel).name = a) ∧
    (∀ (fname : String) (args : Option (List NamedArg))
        (sel : Option (List Resource)),
      (visit_field none fname args sel).name = fname) ∧
    (∀ (al : Option String) (fname : String) (args : Option (List NamedArg))
        (sel : Option (List Resource)),
      (visit_field al fname args sel).filters = [Filter.make fname args]) := by
  refine ⟨rfl, ?_, ?_, ?_⟩
  · intro a fname args sel ha
    unfold visit_field fieldDisplayName
    cases sel with
    | none => simp [Resource.name, ha]
    | some rs => cases rs <;> simp [Resource.name, ha]
  · intro fname args sel
    unfold visit_field fieldDisplayName
    cases sel with
    | none => simp [Resource.name]
    | some rs => cases rs <;> simp [Resource.name]
  · intro al fname args sel
    unfold visit_field
    cases sel with
    | none => simp [Resource.filters]
    | some rs => cases rs <;> simp [Resource.filters]

/-- C2 (witness): the alias branch of the display-name rule applied to
the alias `"luke"` over the field name `"human"`. -/
theorem parse_alias_field_witness :
    (visit_field (some "luke") "human" none none).name = "luke" :=
  parse_alias_field.2.1 "luke" "human" none none (by decide)

/-- C3: a field parsed without a parenthesized argument list yields a
Filter whose argument list is the empty list (not a distinct null
state), identical to what an empty argument list passed to Filter
construction would produce. -/
theorem no_parens_filter_args_empty :
    (∀ (al : Option String) (fname : String) (sel : Option (List Resource)),
      visit_field al fname none sel = visit_field al fname (some []) sel) ∧
    (∀ (al : Option String) (fname : String) (sel : Option (List Resource)),
      (visit_field al fname none sel).filters = [⟨fname, []⟩]) ∧
    parseFieldDoc "name" = some (.field "name" [⟨"name", []⟩] false) := by
  refine ⟨fun al fname sel => rfl, ?_, rfl⟩
  intro al fname sel
  unfold visit_field
  cases sel with
  | none => simp [Resource.filters, Filter.make]
  | some rs => cases rs <;> simp [Resource.filters, Filter.make]

/-- C4: inside an argument list only a colon is accepted between an
argument name and its value: any other separator character fails the
`ARGS_OPER` rule at that position, `foo = 1` fails to parse as a
named-argument list, and `foo: 1` parses to the single argument
`foo = 1`. -/
theorem args_separator_colon_only :
    (∀ (c : Char) (rest : List Char), c ≠ ':' → argsOper (c :: rest) = none) ∧
    parseNamedArgsDoc "foo = 1" = none ∧
    parseNamedArgsDoc "foo: 1" = some [⟨"foo", "=", .int 1⟩] := by
  refine ⟨?_, rfl, rfl⟩
  intro c rest hc
  simp [argsOper, hc]

/-- C4 (witness): the equals sign is rejected as the name/value
separator. -/
theorem args_separator_colon_only_witness : argsOper ['='] = none :=
  args_separator_colon_only.1 '=' [] (by decide)

/-- C7: a field followed by a (necessarily non-empty) selection set
reduces to an Object carrying that selection set as children, and the
same field with no selection set reduces to a leaf Field, checked both
in the reducer and on concrete parses of the same field name with and
without a trailing selection set. -/
theorem field_object_or_leaf :
    (∀ (al : Option String) (fname : String) (args : Option (List NamedArg))
        (r : Resource) (rs : List Resource),
      visit_field al fname args (some (r :: rs)) =
        .object (fieldDisplayName al fname) [Filter.make fname args] (r :: rs) false) ∧
    (∀ (al : Option String) (fname : String) (args : Option (List NamedArg)),
      visit_field al fname args none =
        .field (fieldDisplayName al fname) [Filter.make fname args] false) ∧
    parseFieldDoc "hero" = some (.field "hero" [⟨"hero", []⟩] false) ∧
    parseFieldDoc "hero \x7b name \x7d" =
      some (.object "hero" [⟨"hero", []⟩]
        [.field "name" [⟨"name", []⟩] false] false) :=
  ⟨fun _ _ _ _ _ => rfl, fun _ _ _ => rfl, rfl, rfl⟩

set_option maxHeartbeats 1000000 in
/-- C8: sibling selections separated by bare whitespace, a comma, or a
comma with surrounding whitespace parse to identical selection lists. -/
theorem separator_equivalence :
    parse "\x7bname homePlanet\x7d" =
      some ⟨"default", [.field "name" [⟨"name", []⟩] true,
                        .field "homePlanet" [⟨"homePlanet", []⟩] true]⟩ ∧
    parse "\x7bname, homePlanet\x7d" =
      some ⟨"default", [.field "name" [⟨"name", []⟩] true,
                        .field "homePlanet" [⟨"homePlanet", []⟩] true]⟩ ∧
    parse "\x7bname ,homePlanet\x7d" =
      some ⟨"default", [.field "name" [⟨"name", []⟩] true,
                        .field "homePlanet" [⟨"homePlanet", []⟩] true]⟩ :=
  ⟨rfl, rfl, rfl⟩

/-! ### Root flagging (C5) -/

theorem noRootFlags_field (n : String) (f : List Filter) (b : Bool) :
    noRootFlags (.field n f b) = !b := rfl

theorem noRootFlags_object (n : String) (f : List Filter) (rs : List Resource)
    (b : Bool) : noRootFlags (.object n f rs b) = (!b && noRootFlagsL rs) := rfl

theorem noRootFlagsL_nil : noRootFlagsL [] = true := rfl

theorem noRootFlagsL_cons (r : Resource) (rs : List Resource) :
    noRootFlagsL (r :: rs) = (noRootFlags r && noRootFlagsL rs) := rfl

theorem flagsOffBelow_object (n : String) (f : List Filter) (rs : List Resource)
    (b : Bool) : flagsOffBelow (.object n f rs b) = noRootFlagsL rs := rfl

theorem setRoot_is_root (r : Resource) : (setRoot r).is_root = true := by
  cases r <;> rfl

theorem flagsOffBelow_setRoot (r : Resource) :
    flagsOffBelow (setRoot r) = flagsOffBelow r := by
  cases r <;> rfl

theorem flagsOffBelow_of_noRootFlags (r : Resource) (h : noRootFlags r = true) :
    flagsOffBelow r = true := by
  cases r with
  | field n f b => rfl
  | object n f rs b =>
    rw [noRootFlags_object, Bool.and_eq_true] at h
    rw [flagsOffBelow_object]
    exact h.2

theorem noRootFlagsL_forall (rs : List Resource) (h : noRootFlagsL rs = true) :
    ∀ r ∈ rs, noRootFlags r = true := by
  induction rs with
  | nil => intro r hr; cases hr
  | cons x xs ih =>
    rw [noRootFlagsL_cons, Bool.and_eq_true] at h
    intro r hr
    rcases List.mem_cons.mp hr with rfl | hr
    · exact h.1
    · exact ih h.2 r hr

theorem rootsOk_of_setRoot (nm : String) (rs : List Resource)
    (h : noRootFlagsL rs = true) : rootsOk ⟨nm, rs.map setRoot⟩ = true := by
  unfold rootsOk
  simp only [List.all_map, List.all_eq_true, Function.comp]
  intro r hr
  rw [setRoot_is_root, flagsOffBelow_setRoot, Bool.and_eq_true]
  exact ⟨rfl, flagsOffBelow_of_noRootFlags r (noRootFlagsL_forall rs h r hr)⟩

theorem noRootFlags_visit_field (al : Option String) (fname : String)
    (args : Option (List NamedArg)) (sel : Option (List Resource))
    (h : ∀ rs, sel = some rs → noRootFlagsL rs = true) :
    noRootFlags (visit_field al fname args sel) = true := by
  cases sel with
  | none => rfl
  | some rs =>
    cases rs with
    | nil => rfl
    | cons r rs =>
      show noRootFlags (Resource.object (fieldDisplayName al fname)
        [Filter.make fname args] (r :: rs) false) = true
      rw [noRootFlags_object]
      simp [h (r :: rs) rfl]

theorem parseFieldsStar_inv (fieldP : List Char → Option (Resource × List Char))
    (hF : ∀ s r rest, fieldP s = some (r, rest) → noRootFlags r = true) :
    ∀ (fuel : Nat) (s : List Char),
    noRootFlagsL (parseFieldsStar fieldP fuel s).1 = true := by
  intro fuel
  induction fuel with
  | zero => intro s; rfl
  | succ n ih =>
    intro s
    unfold parseFieldsStar
    cases hf : fieldP s with
    | none => rfl
    | some p =>
      obtain ⟨r, s1⟩ := p
      show noRootFlagsL (r :: (parseFieldsStar fieldP n s1).1) = true
      rw [noRootFlagsL_cons, Bool.and_eq_true]
      exact ⟨hF s r s1 hf, ih s1⟩

theorem parseSelections_inv (fieldP : List Char → Option (Resource × List Char))
    (hF : ∀ s r rest, fieldP s = some (r, rest) → noRootFlags r = true)
    (fuel : Nat) (s : List Char) {rs : List Resource} {rest : List Char}
    (h : parseSelections fieldP fuel s = some (rs, rest)) :
    noRootFlagsL rs = true := by
  rw [parseSelections_eq] at h
  simp only [Option.map_eq_some'] at h
  obtain ⟨⟨r, s1⟩, hf, hq⟩ := h
  simp only [Prod.mk.injEq] at hq
  obtain ⟨h1, _⟩ := hq
  subst h1
  rw [noRootFlagsL_cons, Bool.and_eq_true]
  exact ⟨hF s r s1 hf, parseFieldsStar_inv fieldP hF fuel s1⟩

theorem parseSelectionSetWith_inv
    (fieldP : List Char → Option (Resource × List Char))
    (hF : ∀ s r rest, fieldP s = some (r, rest) → noRootFlags r = true)
    (fuel : Nat) (s : List Char) {rs : List Resource} {rest : List Char}
    (h : parseSelectionSetWith fieldP fuel s = some (rs, rest)) :
    noRootFlagsL rs = true := by
  rw [parseSelectionSetWith_eq] at h
  simp only [Option.bind_eq_some, Option.map_eq_some'] at h
  obtain ⟨s1, _, p, hsel, s3, _, hp⟩ := h
  simp only [Prod.mk.injEq] at hp
  obtain ⟨h1, _⟩ := hp
  subst h1
  exact parseSelections_inv fieldP hF fuel s1 hsel

theorem optSelWith_inv (selSetP : List Char → Option (List Resource × List Char))
    (hSel : ∀ s1 rs rest, selSetP s1 = some (rs, rest) → noRootFlagsL rs = true)
    (s : List Char) :
    ∀ rs, (optSelWith selSetP s).1 = some rs → noRootFlagsL rs = true := by
  intro rs h
  unfold optSelWith at h
  revert h
  cases hs : selSetP s with
  | none => intro h; exact absurd h (by simp)
  | some p =>
    obtain ⟨rs1, s5⟩ := p
    intro h
    simp only [Option.some.injEq] at h
    subst h
    exact hSel s rs1 s5 hs

theorem parseFieldWith_inv
    (selSetP : List Char → Option (List Resource × List Char)) (fuel : Nat)
    (s : List Char)
    (hSel : ∀ s1 rs rest, selSetP s1 = some (rs, rest) → noRootFlagsL rs = true)
    {r : Resource} {rest : List Char}
    (h : parseFieldWith selSetP fuel s = some (r, rest)) :
    noRootFlags r = true := by
  unfold parseFieldWith at h
  revert h
  cases hid : identP (optFieldAlias (ws s)).2 with
  | none => intro h; exact absurd h (by simp)
  | some q =>
    intro h
    simp only [Option.some.injEq] at h
    have h1 : (parseFieldTail selSetP fuel (optFieldAlias (ws s)).1 q.1 (ws q.2)).1 = r :=
      congrArg Prod.fst h
    rw [← h1]
    show noRootFlags (visit_field (optFieldAlias (ws s)).1 q.1
      (optFieldArguments fuel (ws q.2)).1
      (optSelWith selSetP (optFieldArguments fuel (ws q.2)).2).1) = true
    exact noRootFlags_visit_field _ _ _ _
      (optSelWith_inv selSetP hSel (optFieldArguments fuel (ws q.2)).2)

theorem parseField_inv :
    ∀ (fuel : Nat) (s : List Char) (r : Resource) (rest : List Char),
    parseField fuel s = some (r, rest) → noRootFlags r = true := by
  intro fuel
  induction fuel with
  | zero => intro s r rest h; exact Option.noConfusion h
  | succ n ih =>
    intro s r rest h
    exact parseFieldWith_inv (parseSelectionSetWith (parseField n) n) n s
      (fun s1 rs rest1 hs =>
        parseSelectionSetWith_inv (parseField n)
          (fun s2 r2 rest2 hf => ih s2 r2 rest2 hf) n s1 hs) h

/-- C5: in every query returned by `parse`, each direct child of the
query has `is_root = true` and every descendant resource below those has
`is_root = false`. -/
theorem parse_root_flags (doc : String) (q : Query) (h : parse doc = some q) :
    rootsOk q = true := by
  rw [parse_eq] at h
  simp only [Option.bind_eq_some] at h
  obtain ⟨⟨rs, rest⟩, hps, hif⟩ := h
  by_cases hr : ws rest = []
  · rw [if_pos hr] at hif
    simp only [Option.some.injEq] at hif
    subst hif
    exact rootsOk_of_setRoot "default" rs
      (parseSelectionSetWith_inv (parseField (doc.toList.length + 1))
        (fun s2 r2 rest2 hf => parseField_inv (doc.toList.length + 1) s2 r2 rest2 hf)
        (doc.toList.length + 1) (ws doc.toList) hps)
  · rw [if_neg hr] at hif
    exact absurd hif (by simp)

/-- C5 (witness): the root-flag property on the parsed document with one
nested selection set. -/
theorem parse_root_flags_witness :
    rootsOk ⟨"default",
      [.object "a" [⟨"a", []⟩] [.field "b" [⟨"b", []⟩] false] true]⟩ = true :=
  parse_root_flags "\x7ba \x7bb\x7d\x7d"
    ⟨"default", [.object "a" [⟨"a", []⟩] [.field "b" [⟨"b", []⟩] false] true]⟩ rfl

/-- C9: argument literal values are typed, not raw text: `1000` parses
to the integer 1000, `"1000"` to the string `"1000"`, `true` and `TRUE`
to the boolean true, and `null` to the null value. -/
theorem argument_value_typing :
    parseFieldArgumentsDoc "(n: 1000)" = some [⟨"n", "=", .int 1000⟩] ∧
    parseFieldArgumentsDoc "(n: \"1000\")" = some [⟨"n", "=", .str "1000"⟩] ∧
    parseFieldArgumentsDoc "(n: true)" = some [⟨"n", "=", .bool true⟩] ∧
    parseFieldArgumentsDoc "(n: TRUE)" = some [⟨"n", "=", .bool true⟩] ∧
    parseFieldArgumentsDoc "(n: null)" = some [⟨"n", "=", .null⟩] :=
  ⟨rfl, rfl, rfl, rfl, rfl⟩

end GraphQLServer
